import Mathlib

/-!
# Verification of the BeautifyTable core (CSV parsing, type inference,
pagination, rich-text rendering, cell formatting, id generation)

Shallow embedding of the TypeScript sources:
* `src/unnamed/part_001` — `generateId`, `detectType`, `parseCSV`
* `src/components/EditorView.tsx` — `FormattedCell` (block renderer),
  `applyFormat` (cell formatting mutator), `paginatedRows` (paginator)

Strings are embedded as `List Char` (a JS string is its sequence of
characters; all claim-relevant inputs live in the basic multilingual plane,
where JS UTF-16 code units and code points coincide).  The host-dependent
`Date.parse` is modelled as an oracle parameter `dateParse`.  `Math.random`
outputs are modelled as dyadic rationals `n / 2^53` (the granularity of the
standard generators), represented by the numerator `n`.
-/

/-- The character class of the JS regex `\s`, which is also the set of
characters removed by `String.prototype.trim` (WhiteSpace ∪ LineTerminator
from the ECMAScript spec). -/
def jsWhitespaceList : List Char :=
  [' ', '\t', '\n', '\r', '\u000B', '\u000C', '\u00A0', '\uFEFF',
   '\u1680', '\u2000', '\u2001', '\u2002', '\u2003', '\u2004', '\u2005',
   '\u2006', '\u2007', '\u2008', '\u2009', '\u200A',
   '\u2028', '\u2029', '\u202F', '\u205F', '\u3000']

/-- Test: `c` matches the JS regex `\s`. -/
def jsWhitespaceChar (c : Char) : Bool := jsWhitespaceList.contains c

/-- JS `String.prototype.trim`: remove leading and trailing whitespace. -/
def jsTrim (s : List Char) : List Char :=
  ((s.dropWhile jsWhitespaceChar).reverse.dropWhile jsWhitespaceChar).reverse

/-!
## CSV scanner (`parseCSV`, `src/unnamed/part_001` lines 48–88)

The character-by-character loop maintaining `insideQuotes`, `currentCell`,
`currentRow` and `rowsData`.  `scanCSVAux l inside cell row acc` is the loop
with remaining input `l`; the base case is the final flush
`if (currentCell || currentRow.length > 0) { ... }`.
-/

def scanCSVAux : List Char → Bool → List Char → List (List Char) →
    List (List (List Char)) → List (List (List Char))
  | [], _, cell, row, acc =>
      if cell ≠ [] ∨ row ≠ [] then acc ++ [row ++ [cell]] else acc
  | c :: rest, inside, cell, row, acc =>
      if c = '"' then
        if inside = true ∧ rest.head? = some '"' then
          scanCSVAux rest.tail inside (cell ++ ['"']) row acc
        else
          scanCSVAux rest (!inside) cell row acc
      else if c = ',' ∧ inside = false then
        scanCSVAux rest inside [] (row ++ [cell]) acc
      else if (c = '\r' ∨ c = '\n') ∧ inside = false then
        scanCSVAux (if c = '\r' ∧ rest.head? = some '\n' then rest.tail else rest)
          inside [] [] (acc ++ [row ++ [cell]])
      else
        scanCSVAux rest inside (cell ++ [c]) row acc
  termination_by l _ _ _ _ => l.length
  decreasing_by
    all_goals simp_wf
    all_goals first
      | (simp [List.length_tail]; omega)
      | (split <;> simp [List.length_tail] <;> omega)
      | omega

/-- The `rowsData` matrix computed by `parseCSV` from the raw file text. -/
def scanCSV (content : List Char) : List (List (List Char)) :=
  scanCSVAux content false [] [] []

/-!
## CSV serializer (modelled from the spec)

The repository contains no CSV writer; claim C1 speaks of "serializing
[a cell-value matrix] to CSV text with quoting (fields containing commas,
embedded newlines, and escaped quotes written as `\x22\x22`)".  The following
generator follows those words: a field containing a comma, a double quote,
or a line break is wrapped in double quotes with each interior quote doubled,
and every record is terminated by a newline.
-/

/-- A field must be quoted when it contains a delimiter, a quote or a
line break. -/
def csvNeedsQuote (cell : List Char) : Bool :=
  cell.any (fun c => c == ',' || c == '"' || c == '\n' || c == '\r')

/-- Double every interior quote (the `""` escape of the claim). -/
def csvEscapeQuotes : List Char → List Char
  | [] => []
  | c :: rest =>
      if c = '"' then '"' :: '"' :: csvEscapeQuotes rest
      else c :: csvEscapeQuotes rest

/-- Modelled from the spec: render one field, quoting when necessary. -/
def csvField (cell : List Char) : List Char :=
  if csvNeedsQuote cell then '"' :: (csvEscapeQuotes cell ++ ['"']) else cell

/-- Modelled from the spec: render one record, comma-separated. -/
def csvLine : List (List Char) → List Char
  | [] => []
  | [cell] => csvField cell
  | cell :: cells => csvField cell ++ ',' :: csvLine cells

/-- Modelled from the spec: render a matrix, one newline-terminated record
per row. -/
def csvSerialize (m : List (List (List Char))) : List Char :=
  (m.map (fun r => csvLine r ++ ['\n'])).flatten

/-! ### Single-step characterizations of the scanner -/

lemma scanCSVAux_nil (inside : Bool) (cell : List Char) (row : List (List Char))
    (acc : List (List (List Char))) :
    scanCSVAux [] inside cell row acc =
      if cell ≠ [] ∨ row ≠ [] then acc ++ [row ++ [cell]] else acc := by
  simp [scanCSVAux]

lemma scanCSVAux_escape (rest : List Char) (cell : List Char)
    (row : List (List Char)) (acc : List (List (List Char)))
    (h : rest.head? = some '"') :
    scanCSVAux ('"' :: rest) true cell row acc =
      scanCSVAux rest.tail true (cell ++ ['"']) row acc := by
  simp [scanCSVAux, h]

lemma scanCSVAux_toggle (rest : List Char) (inside : Bool) (cell : List Char)
    (row : List (List Char)) (acc : List (List (List Char)))
    (h : ¬(inside = true ∧ rest.head? = some '"')) :
    scanCSVAux ('"' :: rest) inside cell row acc =
      scanCSVAux rest (!inside) cell row acc := by
  simp only [scanCSVAux, if_pos rfl, if_neg h]
  simp

lemma scanCSVAux_comma (rest : List Char) (cell : List Char)
    (row : List (List Char)) (acc : List (List (List Char))) :
    scanCSVAux (',' :: rest) false cell row acc =
      scanCSVAux rest false [] (row ++ [cell]) acc := by
  simp [scanCSVAux]

lemma scanCSVAux_newline (rest : List Char) (cell : List Char)
    (row : List (List Char)) (acc : List (List (List Char))) :
    scanCSVAux ('\n' :: rest) false cell row acc =
      scanCSVAux rest false [] [] (acc ++ [row ++ [cell]]) := by
  simp [scanCSVAux]

lemma scanCSVAux_inquote_char (c : Char) (rest : List Char) (cell : List Char)
    (row : List (List Char)) (acc : List (List (List Char))) (hc : c ≠ '"') :
    scanCSVAux (c :: rest) true cell row acc =
      scanCSVAux rest true (cell ++ [c]) row acc := by
  simp [scanCSVAux, hc]

lemma scanCSVAux_plain_char (c : Char) (rest : List Char) (cell : List Char)
    (row : List (List Char)) (acc : List (List (List Char)))
    (h1 : c ≠ '"') (h2 : c ≠ ',') (h3 : c ≠ '\r') (h4 : c ≠ '\n') :
    scanCSVAux (c :: rest) false cell row acc =
      scanCSVAux rest false (cell ++ [c]) row acc := by
  simp [scanCSVAux, h1, h2, h3, h4]

/-! ### Round-trip lemmas -/

lemma scanCSVAux_escape_run (cell : List Char) (rest : List Char)
    (cellAcc : List Char) (row : List (List Char)) (acc : List (List (List Char)))
    (h : rest.head? ≠ some '"') :
    scanCSVAux (csvEscapeQuotes cell ++ '"' :: rest) true cellAcc row acc =
      scanCSVAux rest false (cellAcc ++ cell) row acc := by
  induction cell generalizing cellAcc with
  | nil =>
      simpa using scanCSVAux_toggle rest true cellAcc row acc (by simp [h])
  | cons c cs ih =>
      by_cases hc : c = '"'
      · subst hc
        have hhead : (('"' :: (csvEscapeQuotes cs ++ '"' :: rest)) : List Char).head? =
            some '"' := rfl
        calc scanCSVAux (csvEscapeQuotes ('"' :: cs) ++ '"' :: rest) true cellAcc row acc
            = scanCSVAux ('"' :: '"' :: (csvEscapeQuotes cs ++ '"' :: rest)) true
                cellAcc row acc := by simp [csvEscapeQuotes]
          _ = scanCSVAux (csvEscapeQuotes cs ++ '"' :: rest) true (cellAcc ++ ['"'])
                row acc := by
                rw [scanCSVAux_escape _ _ _ _ hhead]
                rfl
          _ = scanCSVAux rest false ((cellAcc ++ ['"']) ++ cs) row acc := ih _
          _ = scanCSVAux rest false (cellAcc ++ '"' :: cs) row acc := by
                simp
      · calc scanCSVAux (csvEscapeQuotes (c :: cs) ++ '"' :: rest) true cellAcc row acc
            = scanCSVAux (c :: (csvEscapeQuotes cs ++ '"' :: rest)) true cellAcc
                row acc := by simp [csvEscapeQuotes, hc]
          _ = scanCSVAux (csvEscapeQuotes cs ++ '"' :: rest) true (cellAcc ++ [c])
                row acc := scanCSVAux_inquote_char _ _ _ _ _ hc
          _ = scanCSVAux rest false ((cellAcc ++ [c]) ++ cs) row acc := ih _
          _ = scanCSVAux rest false (cellAcc ++ c :: cs) row acc := by simp

lemma scanCSVAux_plain_run (cell : List Char) (rest : List Char)
    (cellAcc : List Char) (row : List (List Char)) (acc : List (List (List Char)))
    (h : csvNeedsQuote cell = false) :
    scanCSVAux (cell ++ rest) false cellAcc row acc =
      scanCSVAux rest false (cellAcc ++ cell) row acc := by
  induction cell generalizing cellAcc with
  | nil => simp
  | cons c cs ih =>
      have hc : ¬(c == ',' || c == '"' || c == '\n' || c == '\r') = true := by
        intro hcontra
        simp [csvNeedsQuote, List.any_cons, hcontra] at h
      simp only [Bool.or_eq_true, beq_iff_eq, not_or] at hc
      obtain ⟨⟨⟨hc1, hc2⟩, hc3⟩, hc4⟩ := hc
      have hrest : csvNeedsQuote cs = false := by
        simp only [csvNeedsQuote, List.any_cons, Bool.or_eq_false_iff] at h
        exact h.2
      calc scanCSVAux ((c :: cs) ++ rest) false cellAcc row acc
          = scanCSVAux (cs ++ rest) false (cellAcc ++ [c]) row acc :=
            scanCSVAux_plain_char _ _ _ _ _ hc2 hc1 hc4 hc3
        _ = scanCSVAux rest false ((cellAcc ++ [c]) ++ cs) row acc := ih _ hrest
        _ = scanCSVAux rest false (cellAcc ++ c :: cs) row acc := by simp

lemma scanCSVAux_field (cell : List Char) (rest : List Char)
    (row : List (List Char)) (acc : List (List (List Char)))
    (h : rest.head? ≠ some '"') :
    scanCSVAux (csvField cell ++ rest) false [] row acc =
      scanCSVAux rest false cell row acc := by
  by_cases hq : csvNeedsQuote cell
  · have : csvField cell ++ rest =
        '"' :: (csvEscapeQuotes cell ++ '"' :: rest) := by
      simp [csvField, hq]
    rw [this, scanCSVAux_toggle _ _ _ _ _ (by simp)]
    simpa using scanCSVAux_escape_run cell rest [] row acc h
  · have : csvField cell ++ rest = cell ++ rest := by
      simp [csvField, hq]
    rw [this]
    simpa using scanCSVAux_plain_run cell rest [] row acc (by simpa using hq)

lemma scanCSVAux_line (row : List (List Char)) (rest : List Char)
    (rowAcc : List (List Char)) (acc : List (List (List Char)))
    (hrow : row ≠ []) :
    scanCSVAux (csvLine row ++ '\n' :: rest) false [] rowAcc acc =
      scanCSVAux rest false [] [] (acc ++ [rowAcc ++ row]) := by
  induction row generalizing rowAcc with
  | nil => exact absurd rfl hrow
  | cons cell cells ih =>
      cases cells with
      | nil =>
          calc scanCSVAux (csvLine [cell] ++ '\n' :: rest) false [] rowAcc acc
              = scanCSVAux (csvField cell ++ '\n' :: rest) false [] rowAcc acc := by
                simp [csvLine]
            _ = scanCSVAux ('\n' :: rest) false cell rowAcc acc :=
                scanCSVAux_field _ _ _ _ (by simp)
            _ = scanCSVAux rest false [] [] (acc ++ [rowAcc ++ [cell]]) :=
                scanCSVAux_newline _ _ _ _
      | cons cell2 cells2 =>
          calc scanCSVAux (csvLine (cell :: cell2 :: cells2) ++ '\n' :: rest)
                false [] rowAcc acc
              = scanCSVAux (csvField cell ++
                  ',' :: (csvLine (cell2 :: cells2) ++ '\n' :: rest)) false []
                  rowAcc acc := by
                simp [csvLine]
            _ = scanCSVAux (',' :: (csvLine (cell2 :: cells2) ++ '\n' :: rest))
                  false cell rowAcc acc :=
                scanCSVAux_field _ _ _ _ (by simp)
            _ = scanCSVAux (csvLine (cell2 :: cells2) ++ '\n' :: rest) false []
                  (rowAcc ++ [cell]) acc := scanCSVAux_comma _ _ _ _
            _ = scanCSVAux rest false [] [] (acc ++ [(rowAcc ++ [cell]) ++
                  (cell2 :: cells2)]) := ih _ (by simp)
            _ = scanCSVAux rest false [] [] (acc ++ [rowAcc ++
                  (cell :: cell2 :: cells2)]) := by simp

lemma scanCSVAux_matrix (m : List (List (List Char)))
    (acc : List (List (List Char))) (h : ∀ r ∈ m, r ≠ []) :
    scanCSVAux (csvSerialize m) false [] [] acc = acc ++ m := by
  induction m generalizing acc with
  | nil => simp [csvSerialize, scanCSVAux_nil]
  | cons r rs ih =>
      have hr : r ≠ [] := h r (by simp)
      have hrs : ∀ x ∈ rs, x ≠ [] := fun x hx => h x (by simp [hx])
      calc scanCSVAux (csvSerialize (r :: rs)) false [] [] acc
          = scanCSVAux (csvLine r ++ '\n' :: csvSerialize rs) false [] [] acc := by
            simp [csvSerialize]
        _ = scanCSVAux (csvSerialize rs) false [] [] (acc ++ [[] ++ r]) :=
            scanCSVAux_line r _ [] acc hr
        _ = (acc ++ [r]) ++ rs := by rw [ih (acc ++ [[] ++ r]) hrs]; simp
        _ = acc ++ (r :: rs) := by simp

/-- Tokenizer round trip: scanning a serialized matrix recovers it exactly,
provided every row has at least one cell. -/
lemma scanCSV_roundtrip (m : List (List (List Char))) (h : ∀ r ∈ m, r ≠ []) :
    scanCSV (csvSerialize m) = m := by
  simpa using scanCSVAux_matrix m [] h

/-!
## JS numeric-string semantics (`Number(string)` / `isNaN`)

`detectType` tests `!isNaN(Number(v.replace(/[$,]/g, '')))`.  `Number`
applied to a string is NaN exactly when the (whitespace-trimmed) string is
neither empty nor a `StrNumericLiteral`, so only grammar acceptance matters
to `detectType`.  The parser below additionally returns the denoted value —
`posInf`/`negInf` for the `Infinity` literals and the exact rational value
otherwise — which lets the claim-side notion "parses as a finite number" be
stated precisely.
-/

inductive JsNumLit : Type
  | posInf : JsNumLit
  | negInf : JsNumLit
  | val : ℚ → JsNumLit
  deriving DecidableEq

def isDigitChar (c : Char) : Bool := '0' ≤ c ∧ c ≤ '9'

def isHexDigitChar (c : Char) : Bool :=
  ('0' ≤ c ∧ c ≤ '9') ∨ ('a' ≤ c ∧ c ≤ 'f') ∨ ('A' ≤ c ∧ c ≤ 'F')

def isOctDigitChar (c : Char) : Bool := '0' ≤ c ∧ c ≤ '7'

def isBinDigitChar (c : Char) : Bool := c = '0' ∨ c = '1'

def digitVal (c : Char) : ℕ :=
  if '0' ≤ c ∧ c ≤ '9' then c.toNat - '0'.toNat
  else if 'a' ≤ c ∧ c ≤ 'f' then 10 + c.toNat - 'a'.toNat
  else if 'A' ≤ c ∧ c ≤ 'F' then 10 + c.toNat - 'A'.toNat
  else 0

def natOfBase (b : ℕ) (ds : List Char) : ℕ :=
  ds.foldl (fun a c => b * a + digitVal c) 0

/-- Exponent digits after `e`/`E`: optional sign then one or more digits. -/
def parseExpTail (cs : List Char) : Option ℤ :=
  match cs with
  | '+' :: r => if r ≠ [] ∧ r.all isDigitChar then some (natOfBase 10 r : ℤ) else none
  | '-' :: r => if r ≠ [] ∧ r.all isDigitChar then some (-(natOfBase 10 r : ℤ)) else none
  | r => if r ≠ [] ∧ r.all isDigitChar then some (natOfBase 10 r : ℤ) else none

/-- An optional `ExponentPart` consuming the whole remaining input. -/
def parseExpOpt : List Char → Option ℤ
  | [] => some 0
  | 'e' :: r => parseExpTail r
  | 'E' :: r => parseExpTail r
  | _ => none

/-- Grammar `StrUnsignedDecimalLiteral`: `Infinity`, `digits[.digits][exp]`, or
`.digits[exp]`. -/
def parseUnsignedDec (cs : List Char) : Option JsNumLit :=
  if cs = String.toList "Infinity" then some .posInf
  else
    let ds := cs.takeWhile isDigitChar
    let r1 := cs.dropWhile isDigitChar
    if ds ≠ [] then
      match r1 with
      | '.' :: r2 =>
          let fs := r2.takeWhile isDigitChar
          let r3 := r2.dropWhile isDigitChar
          (parseExpOpt r3).map (fun e =>
            .val (((natOfBase 10 ds : ℚ) +
              (natOfBase 10 fs : ℚ) / (10 : ℚ) ^ fs.length) * (10 : ℚ) ^ e))
      | _ =>
          (parseExpOpt r1).map (fun e => .val ((natOfBase 10 ds : ℚ) * (10 : ℚ) ^ e))
    else
      match cs with
      | '.' :: r2 =>
          let fs := r2.takeWhile isDigitChar
          let r3 := r2.dropWhile isDigitChar
          if fs ≠ [] then
            (parseExpOpt r3).map (fun e =>
              .val (((natOfBase 10 fs : ℚ) / (10 : ℚ) ^ fs.length) * (10 : ℚ) ^ e))
          else none
      | _ => none

/-- Grammar `NonDecimalIntegerLiteral`: `0x`/`0o`/`0b` forms (no sign allowed). -/
def parseNonDecimal (cs : List Char) : Option JsNumLit :=
  match cs with
  | '0' :: x :: r =>
      if x = 'x' ∨ x = 'X' then
        if r ≠ [] ∧ r.all isHexDigitChar then some (.val (natOfBase 16 r)) else none
      else if x = 'o' ∨ x = 'O' then
        if r ≠ [] ∧ r.all isOctDigitChar then some (.val (natOfBase 8 r)) else none
      else if x = 'b' ∨ x = 'B' then
        if r ≠ [] ∧ r.all isBinDigitChar then some (.val (natOfBase 2 r)) else none
      else none
  | _ => none

def negLit : JsNumLit → JsNumLit
  | .posInf => .negInf
  | .negInf => .posInf
  | .val q => .val (-q)

/-- JS `Number(s)` on a string: `some` of the denoted value when the string is
numeric (NaN otherwise).  An empty or all-whitespace string denotes `0`. -/
def jsParseNumber (s : List Char) : Option JsNumLit :=
  match jsTrim s with
  | [] => some (.val 0)
  | '+' :: r => parseUnsignedDec r
  | '-' :: r => (parseUnsignedDec r).map negLit
  | t =>
      match parseNonDecimal t with
      | some v => some v
      | none => parseUnsignedDec t

/-- JS `!isNaN(Number(s))`. -/
def jsNumericAccepts (s : List Char) : Bool := (jsParseNumber s).isSome

/-- Claim-side notion: the string denotes a *finite* JS number.  The
literal must be accepted, must not be an `Infinity` literal, and its exact
value must round below the IEEE-754 double overflow threshold
`2^1024 - 2^970`. -/
def jsDenotesFinite (s : List Char) : Bool :=
  match jsParseNumber s with
  | some (.val q) => |q| < (2 : ℚ) ^ 1024 - (2 : ℚ) ^ 970
  | _ => false

/-!
## Column type inference (`detectType`, `src/unnamed/part_001` lines 7–27)

`Date.parse` is host-defined; it is passed in as the oracle `dateParse`
(`dateParse v = true` models `!isNaN(Date.parse(v))`).
-/

inductive ColType : Type
  | text | number | currency | date | tag
  deriving DecidableEq

/-- JS `v.replace(/[$,]/g, '')`. -/
def stripDollarComma (v : List Char) : List Char :=
  v.filter (fun c => !(c == '$' || c == ','))

def detectType (dateParse : List Char → Bool) (values : List (List Char)) :
    ColType :=
  let validValues := values.filter (fun v => !v.isEmpty)
  if validValues.isEmpty then .text
  else if validValues.all (fun v => jsNumericAccepts (stripDollarComma v)) then
    if validValues.any (fun v => v.contains '$') then .currency else .number
  else if validValues.all dateParse then .date
  else if validValues.all (fun v => v.length < 20) &&
      decide (2 * validValues.dedup.length < validValues.length) then .tag
  else .text

/-!
## Full `parseCSV` pipeline (`src/unnamed/part_001` lines 48–119)

Row objects are embedded as total functions from column key to cell text
(a missing key reads as the empty string, as `row[h] = rowValues[idx] || ''`
writes `''` for missing indices and unwritten keys never occur in the code's
reads).  The random `generateId` row ids carry no information relevant to
any claim and are not part of the row embedding.
-/

/-- The filter `r.length > 0 && (r.length > 1 || r[0] !== '')` dropping
trailing-newline artifacts. -/
def jsValidRow : List (List Char) → Bool
  | [] => false
  | [c] => !c.isEmpty
  | _ :: _ :: _ => true

/-- JS `header.charAt(0).toUpperCase() + header.slice(1)`. -/
def capitalizeFirst : List Char → List Char
  | [] => []
  | c :: cs => c.toUpper :: cs

/-- The loop `headers.forEach((h, idx) => row[h] = rowValues[idx] || '')`: later
assignments to a duplicate header overwrite earlier ones. -/
def mkRowObjAux : List (List Char) → List (List Char) →
    (List Char → List Char) → (List Char → List Char)
  | [], _, f => f
  | h :: hs, vs, f =>
      mkRowObjAux hs vs.tail (fun k => if k = h then vs.headD [] else f k)

def mkRowObj (headers rowValues : List (List Char)) : List Char → List Char :=
  mkRowObjAux headers rowValues (fun _ => [])

/-- The data-row loop: a row is accepted when its cell count equals the
header count, or exceeds it by one with an empty trailing cell. -/
def parseRows (headers : List (List Char)) (rowsData : List (List (List Char))) :
    List (List Char → List Char) :=
  rowsData.filterMap (fun rowValues =>
    if rowValues.length = headers.length ∨
        (rowValues.length = headers.length + 1 ∧
          rowValues.getD headers.length [' '] = []) then
      some (mkRowObj headers rowValues)
    else none)

structure TableColumn : Type where
  key : List Char
  label : List Char
  type : ColType

structure ParsedTable : Type where
  headers : List (List Char)
  rows : List (List Char → List Char)
  columns : List TableColumn

def emptyFileMsg : List Char := String.toList "File appears empty"

def noValidDataMsg : List Char := String.toList "No valid data found"

def parseCSV (dateParse : List Char → Bool) (content : List Char) :
    Except (List Char) ParsedTable :=
  let rowsData := scanCSV content
  if rowsData.isEmpty then .error emptyFileMsg
  else
    let validRowsData := rowsData.filter jsValidRow
    if validRowsData.isEmpty then .error noValidDataMsg
    else
      let headers := (validRowsData.headD []).map jsTrim
      let rows := parseRows headers validRowsData.tail
      let columns := headers.map (fun header =>
        { key := header
          label := capitalizeFirst header
          type := detectType dateParse (rows.map (fun r => r header)) })
      .ok { headers := headers, rows := rows, columns := columns }

/-! ### Projections used to state the claims -/

def parsedHeaders : Except (List Char) ParsedTable → List (List Char)
  | .ok t => t.headers
  | .error _ => []

def parsedRowCount : Except (List Char) ParsedTable → ℕ
  | .ok t => t.rows.length
  | .error _ => 0

/-- The text of data row `i` (0-based, headers excluded) under column key
`k`, or `none` outside the table. -/
def parsedCellAt (e : Except (List Char) ParsedTable) (i : ℕ) (k : List Char) :
    Option (List Char) :=
  match e with
  | .ok t => (t.rows.get? i).map (fun r => r k)
  | .error _ => none

def parsedOk : Except (List Char) ParsedTable → Bool
  | .ok _ => true
  | .error _ => false

lemma parseCSV_empty_case (dp : List Char → Bool) (content : List Char)
    (h : scanCSV content = []) : parseCSV dp content = .error emptyFileMsg := by
  unfold parseCSV
  rw [if_pos (by simp [h])]

lemma parseCSV_novalid_case (dp : List Char → Bool) (content : List Char)
    (h1 : scanCSV content ≠ [])
    (h2 : (scanCSV content).filter jsValidRow = []) :
    parseCSV dp content = .error noValidDataMsg := by
  unfold parseCSV
  rw [if_neg (by simp [h1]), if_pos (by simp [h2])]

lemma parseCSV_ok_case (dp : List Char → Bool) (content : List Char)
    (h2 : (scanCSV content).filter jsValidRow ≠ []) :
    parseCSV dp content =
      .ok { headers := (((scanCSV content).filter jsValidRow).headD []).map jsTrim
            rows := parseRows
              ((((scanCSV content).filter jsValidRow).headD []).map jsTrim)
              ((scanCSV content).filter jsValidRow).tail
            columns :=
              ((((scanCSV content).filter jsValidRow).headD []).map jsTrim).map
                (fun header =>
                  { key := header
                    label := capitalizeFirst header
                    type := detectType dp
                      ((parseRows
                        ((((scanCSV content).filter jsValidRow).headD []).map jsTrim)
                        ((scanCSV content).filter jsValidRow).tail).map
                          (fun r => r header)) }) } := by
  have h1 : scanCSV content ≠ [] := by
    intro hc
    simp [hc] at h2
  unfold parseCSV
  rw [if_neg (by simp [h1]), if_neg (by simp [h2])]

/-- C3. The CSV parser fails exactly when the scanned input contains no
rows (`"File appears empty"`) or no valid rows survive the
trailing-artifact filter (`"No valid data found"`); the two messages
differ, a zero-byte input produces the empty-file message, and whenever at
least one valid row exists the parser succeeds. -/
theorem parseCSV_error_spec :
    ∀ (dp : List Char → Bool) (content : List Char),
      (parseCSV dp content = .error emptyFileMsg ↔ scanCSV content = []) ∧
      (parseCSV dp content = .error noValidDataMsg ↔
        (scanCSV content ≠ [] ∧ (scanCSV content).filter jsValidRow = [])) ∧
      (parsedOk (parseCSV dp content) = true ↔
        (scanCSV content).filter jsValidRow ≠ []) ∧
      parseCSV dp [] = .error emptyFileMsg ∧
      emptyFileMsg ≠ noValidDataMsg := by
  intro dp content
  have hmsg : emptyFileMsg ≠ noValidDataMsg := by decide
  have hzero : parseCSV dp [] = .error emptyFileMsg :=
    parseCSV_empty_case dp [] (by simp [scanCSV, scanCSVAux_nil])
  by_cases h1 : scanCSV content = []
  · have hres := parseCSV_empty_case dp content h1
    have hfilter : (scanCSV content).filter jsValidRow = [] := by simp [h1]
    refine ⟨by simp [hres, h1], ?_, ?_, hzero, hmsg⟩
    · simp [hres, h1]
      intro hcontra
      exact absurd hcontra hmsg
    · simp [hres, parsedOk, hfilter]
  · by_cases h2 : (scanCSV content).filter jsValidRow = []
    · have hres := parseCSV_novalid_case dp content h1 h2
      refine ⟨?_, by simp [hres, h1, h2], ?_, hzero, hmsg⟩
      · simp [hres, h1]
        intro hcontra
        exact absurd hcontra (Ne.symm hmsg)
      · simp [hres, parsedOk, h2]
    · have hres := parseCSV_ok_case dp content h2
      refine ⟨by simp [hres, h1], by simp [hres, h2], ?_, hzero, hmsg⟩
      simp [hres, parsedOk, h2]

lemma mkRowObjAux_not_mem (hs : List (List Char)) (vs : List (List Char))
    (f : List Char → List Char) (k : List Char) (h : k ∉ hs) :
    mkRowObjAux hs vs f k = f k := by
  induction hs generalizing vs f with
  | nil => rfl
  | cons h0 hs' ih =>
      have hk0 : k ≠ h0 := fun hc => h (by simp [hc])
      have hk' : k ∉ hs' := fun hc => h (by simp [hc])
      rw [mkRowObjAux, ih _ _ hk']
      simp [hk0]

lemma mkRowObjAux_lookup (headers : List (List Char)) (vs : List (List Char))
    (f : List Char → List Char) (j : ℕ) (h : List Char)
    (hnd : headers.Nodup) (hj : headers.get? j = some h) :
    mkRowObjAux headers vs f h = vs.getD j [] := by
  induction headers generalizing vs f j with
  | nil => simp at hj
  | cons h0 hs ih =>
      cases j with
      | zero =>
          have hh : h0 = h := by simpa using hj
          have hnm : h ∉ hs := hh ▸ (List.nodup_cons.mp hnd).1
          rw [mkRowObjAux, mkRowObjAux_not_mem _ _ _ _ hnm]
          rw [if_pos hh.symm]
          cases vs <;> simp [List.getD]
      | succ j' =>
          have hj' : hs.get? j' = some h := by simpa using hj
          rw [mkRowObjAux, ih _ _ _ (List.nodup_cons.mp hnd).2 hj']
          cases vs <;> simp [List.getD]

lemma mkRowObj_lookup (headers : List (List Char)) (vs : List (List Char))
    (j : ℕ) (h : List Char) (hnd : headers.Nodup)
    (hj : headers.get? j = some h) :
    mkRowObj headers vs h = vs.getD j [] :=
  mkRowObjAux_lookup headers vs _ j h hnd hj

lemma filterMap_eq_map_of_forall {α β : Type} (l : List α) (f : α → Option β)
    (g : α → β) (h : ∀ x ∈ l, f x = some (g x)) : l.filterMap f = l.map g := by
  induction l with
  | nil => rfl
  | cons x xs ih =>
      rw [List.filterMap_cons, h x (by simp), List.map_cons,
        ih (fun y hy => h y (by simp [hy]))]

lemma parseRows_all_match (headers : List (List Char))
    (rowsData : List (List (List Char)))
    (h : ∀ r ∈ rowsData, r.length = headers.length) :
    parseRows headers rowsData = rowsData.map (mkRowObj headers) := by
  apply filterMap_eq_map_of_forall
  intro rv hrv
  rw [if_pos (Or.inl (h rv hrv))]

/-- C1. CSV round trip.  First part: scanning the serialized matrix
recovers every cell of every row exactly (in particular a doubled quote
inside a quoted field decodes to one literal quote), for any matrix whose
rows are non-empty (a CSV record always has at least one field).  Second
part: running the full `parseCSV` on the serialized matrix succeeds and
reproduces every data-cell value exactly under the trimmed header keys,
for matrices whose rows also survive the parser's trailing-artifact filter,
are rectangular, and whose trimmed headers are distinct. -/
theorem csv_roundtrip :
    (∀ m : List (List (List Char)), (∀ r ∈ m, r ≠ []) →
       scanCSV (csvSerialize m) = m) ∧
    (∀ (dp : List Char → Bool) (m : List (List (List Char))),
       m ≠ [] →
       (∀ r ∈ m, jsValidRow r = true) →
       (∀ r ∈ m, r.length = (m.headD []).length) →
       ((m.headD []).map jsTrim).Nodup →
       parsedHeaders (parseCSV dp (csvSerialize m)) = (m.headD []).map jsTrim ∧
       parsedRowCount (parseCSV dp (csvSerialize m)) = m.length - 1 ∧
       (∀ (i j : ℕ) (h : List Char),
         ((m.headD []).map jsTrim).get? j = some h →
         parsedCellAt (parseCSV dp (csvSerialize m)) i h =
           (m.tail.get? i).map (fun row => row.getD j []))) := by
  constructor
  · exact scanCSV_roundtrip
  · intro dp m hne hvalid hrect hnd
    have hnonempty : ∀ r ∈ m, r ≠ [] := by
      intro r hr hcontra
      have := hvalid r hr
      rw [hcontra] at this
      simp [jsValidRow] at this
    have hscan : scanCSV (csvSerialize m) = m := scanCSV_roundtrip m hnonempty
    have hfilter : m.filter jsValidRow = m := List.filter_eq_self.mpr hvalid
    have h2 : (scanCSV (csvSerialize m)).filter jsValidRow ≠ [] := by
      rw [hscan, hfilter]; exact hne
    have hok := parseCSV_ok_case dp (csvSerialize m) h2
    rw [hscan, hfilter] at hok
    set hdrs := (m.headD []).map jsTrim with hhdrs
    have hlen : ∀ r ∈ m.tail, r.length = hdrs.length := by
      intro r hr
      rw [hhdrs, List.length_map]
      exact hrect r (List.mem_of_mem_tail hr)
    have hrows : parseRows hdrs m.tail = m.tail.map (mkRowObj hdrs) :=
      parseRows_all_match hdrs m.tail hlen
    refine ⟨?_, ?_, ?_⟩
    · rw [hok]; rfl
    · rw [hok]
      show (parseRows hdrs m.tail).length = m.length - 1
      rw [hrows, List.length_map, List.length_tail]
    · intro i j h hj
      rw [hok]
      show ((parseRows hdrs m.tail).get? i).map (fun r => r h) =
        (m.tail.get? i).map (fun row => row.getD j [])
      rw [hrows, List.get?_map]
      cases hcase : m.tail.get? i with
      | none => rfl
      | some rv =>
          simp only [Option.map_some', Option.map_map, Function.comp]
          rw [mkRowObj_lookup hdrs rv j h hnd hj]

/-- Witness for C1 at a concrete matrix exercising quoted commas, an
embedded newline and an escaped quote. -/
theorem csv_roundtrip_witness :
    (scanCSV (csvSerialize [[String.toList "name", String.toList "age"],
        [String.toList "Smith, John", String.toList "3\"0\nx"]]) =
      [[String.toList "name", String.toList "age"],
       [String.toList "Smith, John", String.toList "3\"0\nx"]]) ∧
    parsedHeaders (parseCSV (fun _ => false)
        (csvSerialize [[String.toList "name", String.toList "age"],
          [String.toList "Smith, John", String.toList "3\"0\nx"]])) =
      [String.toList "name", String.toList "age"] ∧
    parsedCellAt (parseCSV (fun _ => false)
        (csvSerialize [[String.toList "name", String.toList "age"],
          [String.toList "Smith, John", String.toList "3\"0\nx"]])) 0
        (String.toList "name") =
      some (String.toList "Smith, John") := by
  refine ⟨csv_roundtrip.1 _ (by decide), ?_, ?_⟩
  · have h := (csv_roundtrip.2 (fun _ => false)
      [[String.toList "name", String.toList "age"],
       [String.toList "Smith, John", String.toList "3\"0\nx"]]
      (by decide) (by decide) (by decide) (by decide)).1
    rw [h]; decide
  · have h := (csv_roundtrip.2 (fun _ => false)
      [[String.toList "name", String.toList "age"],
       [String.toList "Smith, John", String.toList "3\"0\nx"]]
      (by decide) (by decide) (by decide) (by decide)).2.2 0 0
      (String.toList "name") (by decide)
    rw [h]; decide

/-!
## Claims about `detectType` (C4, C5)
-/

lemma dedup_const (vs : List (List Char)) (v : List Char) (hne : vs ≠ [])
    (hall : ∀ w ∈ vs, w = v) : vs.dedup = [v] := by
  induction vs with
  | nil => exact absurd rfl hne
  | cons x xs ih =>
      have hx : x = v := hall x (by simp)
      subst hx
      cases xs with
      | nil => rfl
      | cons y ys =>
          have hy : y = x := hall y (by simp)
          have hxs : (y :: ys).dedup = [x] :=
            ih (by simp) (fun w hw => hall w (by simp [hw]))
          rw [List.dedup_cons_of_mem (by rw [hy]; simp), hxs]

/-- C4 (amended). Numeric rule of column type inference: if every
non-empty value, after stripping `$` and `,`, is accepted by the JS numeric
grammar (the code's `!isNaN(Number(...))` test — this includes the
non-finite `Infinity` literals), the inferred type is `currency` when some
value contains `$` and `number` otherwise; if some remaining value is not
accepted, the numeric rule does not fire. -/
theorem detectType_numeric_rule :
    ∀ (dp : List Char → Bool) (values : List (List Char)),
      values.filter (fun v => !v.isEmpty) ≠ [] →
      ((values.filter (fun v => !v.isEmpty)).all
          (fun v => jsNumericAccepts (stripDollarComma v)) = true →
        detectType dp values =
          (if (values.filter (fun v => !v.isEmpty)).any (fun v => v.contains '$')
           then ColType.currency else ColType.number)) ∧
      ((values.filter (fun v => !v.isEmpty)).all
          (fun v => jsNumericAccepts (stripDollarComma v)) = false →
        detectType dp values ≠ ColType.currency ∧
        detectType dp values ≠ ColType.number) := by
  intro dp values hne
  constructor
  · intro hall
    simp only [detectType]
    rw [if_neg (by simp only [List.isEmpty_iff]; exact hne), if_pos hall]
  · intro hall
    have h1 : detectType dp values = ColType.date ∨
        detectType dp values = ColType.tag ∨
        detectType dp values = ColType.text := by
      simp only [detectType]
      rw [if_neg (by simp only [List.isEmpty_iff]; exact hne),
        if_neg (by simp [hall])]
      split_ifs <;> simp
    rcases h1 with h | h | h <;> rw [h] <;> exact ⟨by simp, by simp⟩

/-- Witness for C4 at a concrete currency column. -/
theorem detectType_numeric_rule_witness :
    detectType (fun _ => false) [String.toList "$5", String.toList "10"] =
      (if ([String.toList "$5", String.toList "10"].filter
            (fun v => !v.isEmpty)).any (fun v => v.contains '$')
       then ColType.currency else ColType.number) :=
  (detectType_numeric_rule (fun _ => false)
    [String.toList "$5", String.toList "10"] (by decide)).1 (by decide)

/-- Counterexample to C4 as stated: the value `Infinity` does not denote a
finite number, yet the numeric rule fires and infers `number`. -/
theorem detectType_infinity_counterexample :
    detectType (fun _ => false) [String.toList "Infinity"] = ColType.number ∧
    jsDenotesFinite (stripDollarComma (String.toList "Infinity")) = false := by
  constructor <;> decide

/-- C5 (amended). A non-empty column of identical non-empty values,
each shorter than 20 characters, not numeric and not date-parseable, infers
as `tag` — provided there are at least three values (the low-cardinality
test `distinct < count / 2` fails for one or two values). -/
theorem detectType_identical_short_tag :
    ∀ (dp : List Char → Bool) (vs : List (List Char)) (v : List Char),
      vs ≠ [] → (∀ w ∈ vs, w = v) → 3 ≤ vs.length → v ≠ [] →
      v.length < 20 → jsNumericAccepts (stripDollarComma v) = false →
      dp v = false →
      detectType dp vs = ColType.tag := by
  intro dp vs v hne hall hlen3 hvne hshort hnum hdate
  have hmem : v ∈ vs := by
    cases vs with
    | nil => exact absurd rfl hne
    | cons x xs => rw [← hall x (by simp)]; simp
  have hfilter : vs.filter (fun w => !w.isEmpty) = vs := by
    apply List.filter_eq_self.mpr
    intro w hw
    rw [hall w hw]
    simpa using hvne
  have hdedup : vs.dedup = [v] := dedup_const vs v hne hall
  simp only [detectType, hfilter]
  rw [if_neg (by simp only [List.isEmpty_iff]; exact hne)]
  rw [if_neg (by
    intro hcontra
    have := List.all_eq_true.mp hcontra v hmem
    rw [hnum] at this
    exact absurd this (by simp))]
  rw [if_neg (by
    intro hcontra
    have := List.all_eq_true.mp hcontra v hmem
    rw [hdate] at this
    exact absurd this (by simp))]
  rw [if_pos]
  simp only [Bool.and_eq_true, List.all_eq_true, decide_eq_true_eq]
  constructor
  · intro w hw
    rw [hall w hw]
    simpa using hshort
  · rw [hdedup]
    simpa using hlen3

/-- Witness for C5 at a concrete three-value column. -/
theorem detectType_identical_short_tag_witness :
    detectType (fun _ => false)
      [String.toList "ok", String.toList "ok", String.toList "ok"] =
      ColType.tag :=
  detectType_identical_short_tag (fun _ => false)
    [String.toList "ok", String.toList "ok", String.toList "ok"]
    (String.toList "ok") (by decide) (by decide) (by decide) (by decide)
    (by decide) (by decide) rfl

/-- Counterexample to C5 as stated: a single identical short non-numeric,
non-date value yields `text`, not `tag` (the cardinality test needs
`2 * distinct < count`). -/
theorem detectType_identical_counterexample :
    detectType (fun _ => false) [String.toList "hello"] = ColType.text ∧
    ColType.text ≠ ColType.tag ∧
    (String.toList "hello").length < 20 ∧
    jsNumericAccepts (stripDollarComma (String.toList "hello")) = false := by
  refine ⟨by decide, by decide, by decide, by decide⟩

/-!
## Paginator (`paginatedRows`, `src/components/EditorView.tsx` lines 413–419)

The loop `for (let i = 0; i < tableRows.length; i += rowsPerPage)
pages.push(tableRows.slice(i, i + rowsPerPage))` is embedded with an
explicit fuel so that its (non-)termination is expressible: with
`rowsPerPage = 0` the JS loop never advances, and correspondingly the
fueled function never stabilizes.  `rows.length` iterations always suffice
when `rowsPerPage ≥ 1`.
-/

def paginateAux {α : Type} : ℕ → List α → ℕ → List (List α)
  | 0, _, _ => []
  | _ + 1, [], _ => []
  | fuel + 1, r :: rs, rpp =>
      (r :: rs).take rpp :: paginateAux fuel ((r :: rs).drop rpp) rpp

def paginatedRows {α : Type} (rows : List α) (rpp : ℕ) : List (List α) :=
  paginateAux rows.length rows rpp

lemma paginateAux_nil {α : Type} (f rpp : ℕ) :
    paginateAux f ([] : List α) rpp = [] := by
  cases f <;> rfl

lemma paginateAux_fuel_irrel {α : Type} :
    ∀ (f g : ℕ) (rows : List α) (rpp : ℕ), 1 ≤ rpp →
      rows.length ≤ f → rows.length ≤ g →
      paginateAux f rows rpp = paginateAux g rows rpp := by
  intro f
  induction f with
  | zero =>
      intro g rows rpp _ hf _
      have : rows = [] := List.length_eq_zero.mp (Nat.le_zero.mp hf)
      subst this
      rw [paginateAux_nil, paginateAux_nil]
  | succ f' ih =>
      intro g rows rpp hrpp hf hg
      cases rows with
      | nil => rw [paginateAux_nil, paginateAux_nil]
      | cons r rs =>
          cases g with
          | zero => simp at hg
          | succ g' =>
              show ((r :: rs).take rpp :: paginateAux f' ((r :: rs).drop rpp) rpp) =
                ((r :: rs).take rpp :: paginateAux g' ((r :: rs).drop rpp) rpp)
              congr 1
              apply ih g' _ rpp hrpp
              · rw [List.length_drop]
                omega
              · rw [List.length_drop]
                omega

lemma paginatedRows_cons {α : Type} (rows : List α) (rpp : ℕ)
    (hne : rows ≠ []) (hrpp : 1 ≤ rpp) :
    paginatedRows rows rpp =
      rows.take rpp :: paginatedRows (rows.drop rpp) rpp := by
  cases rows with
  | nil => exact absurd rfl hne
  | cons r rs =>
      show paginateAux (rs.length + 1) (r :: rs) rpp = _
      rw [paginateAux]
      congr 1
      apply paginateAux_fuel_irrel _ _ _ _ hrpp
      · rw [List.length_drop]
        simp
        omega
      · rw [List.length_drop]

lemma paginateAux_eq_nil_iff {α : Type} (f : ℕ) (rows : List α) (rpp : ℕ)
    (hf : rows.length ≤ f) :
    paginateAux f rows rpp = [] ↔ rows = [] := by
  cases rows with
  | nil => simp [paginateAux_nil]
  | cons r rs =>
      cases f with
      | zero => simp at hf
      | succ f' =>
          rw [paginateAux]
          simp

lemma paginatedRows_join {α : Type} :
    ∀ (n : ℕ) (rows : List α) (rpp : ℕ), rows.length ≤ n → 1 ≤ rpp →
      (paginatedRows rows rpp).flatten = rows := by
  intro n
  induction n with
  | zero =>
      intro rows rpp hn _
      have : rows = [] := List.length_eq_zero.mp (Nat.le_zero.mp hn)
      subst this
      simp [paginatedRows, paginateAux_nil]
  | succ n' ih =>
      intro rows rpp hn hrpp
      cases hrows : rows with
      | nil => simp [paginatedRows, paginateAux_nil]
      | cons r rs =>
          subst hrows
          rw [paginatedRows_cons _ _ (by simp) hrpp]
          rw [List.flatten_cons, ih _ rpp (by rw [List.length_drop]; omega) hrpp]
          exact List.take_append_drop rpp (r :: rs)

lemma paginatedRows_count {α : Type} :
    ∀ (n : ℕ) (rows : List α) (rpp : ℕ), rows.length ≤ n → 1 ≤ rpp →
      (paginatedRows rows rpp).length = (rows.length + rpp - 1) / rpp := by
  intro n
  induction n with
  | zero =>
      intro rows rpp hn hrpp
      have : rows = [] := List.length_eq_zero.mp (Nat.le_zero.mp hn)
      subst this
      have hdiv : (rpp - 1) / rpp = 0 := Nat.div_eq_of_lt (by omega)
      simp [paginatedRows, paginateAux_nil, hdiv]
  | succ n' ih =>
      intro rows rpp hn hrpp
      cases hrows : rows with
      | nil =>
          have hdiv : (rpp - 1) / rpp = 0 := Nat.div_eq_of_lt (by omega)
          simp [paginatedRows, paginateAux_nil, hdiv]
      | cons r rs =>
          subst hrows
          rw [paginatedRows_cons _ _ (by simp) hrpp, List.length_cons,
            ih _ rpp (by rw [List.length_drop]; omega) hrpp, List.length_drop]
          rcases Nat.lt_or_ge (r :: rs).length rpp with hlt | hge
          · have h1 : (r :: rs).length - rpp = 0 := by omega
            rw [h1]
            have h2 : (0 + rpp - 1) / rpp = 0 := by
              apply Nat.div_eq_of_lt
              omega
            have hlen1 : 1 ≤ (r :: rs).length := by simp
            have h3 : ((r :: rs).length + rpp - 1) / rpp = 1 := by
              apply Nat.div_eq_of_lt_le <;> omega
            omega
          · have hlen : 1 ≤ (r :: rs).length := by simp
            have h1 : (r :: rs).length - rpp + rpp - 1 = (r :: rs).length - 1 := by
              omega
            have h2 : (r :: rs).length + rpp - 1 = ((r :: rs).length - 1) + rpp := by
              omega
            rw [h1, h2, Nat.add_div_right _ (by omega)]

lemma paginatedRows_sizes {α : Type} :
    ∀ (n : ℕ) (rows : List α) (rpp : ℕ), rows.length ≤ n → 1 ≤ rpp →
      ∀ p ∈ paginatedRows rows rpp, 1 ≤ p.length ∧ p.length ≤ rpp := by
  intro n
  induction n with
  | zero =>
      intro rows rpp hn _
      have : rows = [] := List.length_eq_zero.mp (Nat.le_zero.mp hn)
      subst this
      simp [paginatedRows, paginateAux_nil]
  | succ n' ih =>
      intro rows rpp hn hrpp
      cases hrows : rows with
      | nil => simp [paginatedRows, paginateAux_nil]
      | cons r rs =>
          subst hrows
          rw [paginatedRows_cons _ _ (by simp) hrpp]
          intro p hp
          rcases List.mem_cons.mp hp with hp | hp
          · subst hp
            rw [List.length_take]
            constructor
            · simp
              omega
            · exact min_le_left _ _
          · exact ih _ rpp (by rw [List.length_drop]; omega) hrpp p hp

lemma paginatedRows_dropLast {α : Type} :
    ∀ (n : ℕ) (rows : List α) (rpp : ℕ), rows.length ≤ n → 1 ≤ rpp →
      ∀ p ∈ (paginatedRows rows rpp).dropLast, p.length = rpp := by
  intro n
  induction n with
  | zero =>
      intro rows rpp hn _
      have : rows = [] := List.length_eq_zero.mp (Nat.le_zero.mp hn)
      subst this
      simp [paginatedRows, paginateAux_nil]
  | succ n' ih =>
      intro rows rpp hn hrpp
      cases hrows : rows with
      | nil => simp [paginatedRows, paginateAux_nil]
      | cons r rs =>
          subst hrows
          rw [paginatedRows_cons _ _ (by simp) hrpp]
          rcases hrest : paginatedRows ((r :: rs).drop rpp) rpp with _ | ⟨q, qs⟩
          · simp
          · have hdropne : (r :: rs).drop rpp ≠ [] := by
              intro hcontra
              rw [paginatedRows] at hrest
              rw [(paginateAux_eq_nil_iff _ _ _ (le_refl _)).mpr hcontra] at hrest
              exact absurd hrest.symm (by simp)
            have hge : rpp ≤ (r :: rs).length := by
              by_contra hcontra
              exact hdropne (List.drop_eq_nil_of_le (by omega))
            intro p hp
            rw [List.dropLast_cons_of_ne_nil (by simp)] at hp
            rcases List.mem_cons.mp hp with hp | hp
            · subst hp
              rw [List.length_take]
              omega
            · rw [← hrest] at hp
              exact ih _ rpp (by rw [List.length_drop]; omega) hrpp p hp

/-- C2. For every row list and rows-per-page `P ≥ 5`, the paginator
produces `⌈R/P⌉` pages (zero when `R = 0`), concatenating the pages in
order reproduces the rows exactly (each page is a contiguous slice in
original order), every page except possibly the last has exactly `P` rows,
and every page is non-empty with at most `P` rows. -/
theorem paginatedRows_spec :
    ∀ (α : Type) (rows : List α) (rpp : ℕ), 5 ≤ rpp →
      (paginatedRows rows rpp).length = (rows.length + rpp - 1) / rpp ∧
      (paginatedRows rows rpp).flatten = rows ∧
      ((paginatedRows rows rpp).dropLast.all
        (fun p => decide (p.length = rpp)) = true) ∧
      ((paginatedRows rows rpp).all
        (fun p => decide (1 ≤ p.length) && decide (p.length ≤ rpp)) = true) := by
  intro α rows rpp hrpp
  have h1 : 1 ≤ rpp := by omega
  refine ⟨paginatedRows_count rows.length rows rpp (le_refl _) h1,
    paginatedRows_join rows.length rows rpp (le_refl _) h1, ?_, ?_⟩
  · rw [List.all_eq_true]
    intro p hp
    simpa using paginatedRows_dropLast rows.length rows rpp (le_refl _) h1 p hp
  · rw [List.all_eq_true]
    intro p hp
    have := paginatedRows_sizes rows.length rows rpp (le_refl _) h1 p hp
    simp [this.1, this.2]

/-- Witness for C2: seven rows at five per page give pages `[5, 2]`. -/
theorem paginatedRows_spec_witness :
    (paginatedRows (List.range 7) 5).length = ((List.range 7).length + 5 - 1) / 5 ∧
    (paginatedRows (List.range 7) 5).flatten = List.range 7 ∧
    ((paginatedRows (List.range 7) 5).dropLast.all
      (fun p => decide (p.length = 5)) = true) ∧
    ((paginatedRows (List.range 7) 5).all
      (fun p => decide (1 ≤ p.length) && decide (p.length ≤ 5)) = true) :=
  paginatedRows_spec ℕ (List.range 7) 5 (by decide)

/-- C10. Totality of the pagination loop: whenever rows-per-page is at
least 1, `rows.length` iterations suffice (any extra fuel is ignored, i.e.
the loop terminates); with rows-per-page 0 and a non-empty list the loop
never stabilizes (it emits one empty slice per fuel unit); and the
computation applies the raw rows-per-page value without clamping it to the
UI bounds 5..100 (a value of 3 slices by 3, a value of 101 slices by 101). -/
theorem paginate_termination :
    (∀ (α : Type) (rows : List α) (rpp extra : ℕ), 1 ≤ rpp →
      paginateAux (rows.length + extra) rows rpp = paginatedRows rows rpp) ∧
    (∀ (fuel x : ℕ), paginateAux fuel [x] 0 = List.replicate fuel []) ∧
    ((paginatedRows (List.range 7) 3).map List.length = [3, 3, 1]) ∧
    ((paginatedRows (List.range 120) 101).map List.length = [101, 19]) := by
  refine ⟨?_, ?_, by decide, by decide⟩
  · intro α rows rpp extra hrpp
    exact paginateAux_fuel_irrel _ _ rows rpp hrpp (by omega) (le_refl _)
  · intro fuel
    induction fuel with
    | zero => intro x; rfl
    | succ f ih =>
        intro x
        show List.take 0 (x :: []) :: paginateAux f (List.drop 0 (x :: [])) 0 = _
        rw [List.take_zero, List.drop_zero, ih x, List.replicate_succ]

/-- Witness for C10 at concrete fuel and rows-per-page values. -/
theorem paginate_termination_witness :
    paginateAux (([0, 1, 2] : List ℕ).length + 5) [0, 1, 2] 2 =
      paginatedRows [0, 1, 2] 2 :=
  paginate_termination.1 ℕ [0, 1, 2] 2 5 (by decide)

/-!
## Cell formatting mutator (`applyFormat`, `EditorView.tsx` lines 281–347)

The per-cell transformation splits on `\r?\n`, extracts a block prefix
(heading `h1 `/`h2 `/`h3 `, bullet `+ `/`- `/`* `, or numbered `# `) from
the *trimmed* line, applies the requested inline toggle to the remainder,
re-attaches the prefix and rejoins with `\n`.  Selection membership is the
string set of `` `${row.id}-${col.key}` `` cell ids, modelled by the
predicate `sel`.  A `TableRow` is a single open object
(`{ id: generateId() }` followed by `row[h] = v` assignments), embedded as
a total function from key to text: the row id is the value at the key
`id`, so a column keyed `id` aliases it.  Each cell id is computed from
`row.id` of the *original* row while writes go to the shallow copy
`newRow`, so within one `applyFormat` call the id used for lookups is
fixed even if an assignment to the key `id` changes the copy.
-/

/-- JS `content.split(/\r?\n/)`: a lone `\r` does not split. -/
def splitLines : List Char → List (List Char)
  | [] => [[]]
  | '\n' :: rest => [] :: splitLines rest
  | '\r' :: '\n' :: rest => [] :: splitLines rest
  | c :: rest =>
      match splitLines rest with
      | l :: ls => (c :: l) :: ls
      | [] => [[c]]

/-- Regex `/^h[1-3]\s/i` on the trimmed line. -/
def matchH13 : List Char → Bool
  | h :: d :: w :: _ =>
      (h = 'h' ∨ h = 'H') ∧ (d = '1' ∨ d = '2' ∨ d = '3') ∧ jsWhitespaceChar w
  | _ => false

/-- Regex `/^[+\-*]\s/` on the trimmed line. -/
def matchBullet : List Char → Bool
  | b :: w :: _ => (b = '+' ∨ b = '-' ∨ b = '*') ∧ jsWhitespaceChar w
  | _ => false

/-- Regex `/^#\s/` on the trimmed line. -/
def matchHash : List Char → Bool
  | c :: w :: _ => c = '#' ∧ jsWhitespaceChar w
  | _ => false

/-- JS `newText.replace(/^\*|\*$/g, '')`: remove one leading `*` if present,
then one trailing `*` if present (the same character is never removed
twice). -/
def stripOneStar (text : List Char) : List Char :=
  let t1 := if text.head? = some '*' then text.tail else text
  if t1.getLast? = some '*' then t1.dropLast else t1

/-- The `bold` branch: toggle `*...*` based on the trimmed remainder. -/
def boldLine (text : List Char) : List Char :=
  if (jsTrim text).head? = some '*' ∧ (jsTrim text).getLast? = some '*' then
    stripOneStar text
  else '*' :: (text ++ ['*'])

/-- JS `newText.replace(/^_+|_+$/g, '')`: strip the maximal leading and
trailing runs of underscores. -/
def stripUnderscoreRuns (text : List Char) : List Char :=
  ((text.dropWhile (fun c => c = '_')).reverse.dropWhile (fun c => c = '_')).reverse

/-- The `italic` branch. -/
def italicLine (text : List Char) : List Char :=
  if (jsTrim text).head? = some '_' ∧ (jsTrim text).getLast? = some '_' then
    stripUnderscoreRuns text
  else '_' :: (text ++ ['_'])

/-- Opening tag `[color=#` with 3–6 hex digits then `]`; returns the text
after the `]`.  (With more than six digits every backtracking split of the
`{3,6}` quantifier faces a hex digit where `]` is required, so there is no
match.) -/
def parseColorOpen (cs : List Char) : Option (List Char) :=
  match cs with
  | '[' :: 'c' :: 'o' :: 'l' :: 'o' :: 'r' :: '=' :: '#' :: rest =>
      let n := (rest.takeWhile isHexDigitChar).length
      if 3 ≤ n ∧ n ≤ 6 ∧ (rest.drop n).head? = some ']' then
        some (rest.drop n).tail
      else none
  | _ => none


/-- Leftmost `[/color]` reachable by the regex `.` (which matches neither
line terminators nor the Unicode LS/PS separators); returns the content
before the close tag and the text after it. -/
def findColorClose : List Char → Option (List Char × List Char)
  | '[' :: '/' :: 'c' :: 'o' :: 'l' :: 'o' :: 'r' :: ']' :: rest => some ([], rest)
  | [] => none
  | c :: rest =>
      if c = '\n' ∨ c = '\r' ∨ c = ' ' ∨ c = ' ' then none
      else (findColorClose rest).map (fun p => (c :: p.1, p.2))

/-- Global non-greedy replacement
`text.replace(/\[color=#[0-9a-fA-F]{3,6}\](.*?)\[\/color\]/g, '$1')`,
with fuel for the scan position: each step consumes at least one input
character, so `cs.length` fuel is always sufficient. -/
def stripColorTagsAux : ℕ → List Char → List Char
  | 0, cs => cs
  | _ + 1, [] => []
  | fuel + 1, c :: rest =>
      match parseColorOpen (c :: rest) with
      | some afterOpen =>
          match findColorClose afterOpen with
          | some p => p.1 ++ stripColorTagsAux fuel p.2
          | none => c :: stripColorTagsAux fuel rest
      | none => c :: stripColorTagsAux fuel rest

def stripColorTags (cs : List Char) : List Char := stripColorTagsAux cs.length cs

/-- The `color` branch: strip any existing wrappers, then wrap in the new
color (`value` is truthy in every caller; an empty value leaves the text
unchanged, as `type === 'color' && value` fails). -/
def colorLine (value : List Char) (text : List Char) : List Char :=
  if value ≠ [] then
    String.toList "[color=" ++ value ++
      ']' :: (stripColorTags text ++ String.toList "[/color]")
  else text

inductive FormatOp : Type
  | bold | italic | color (value : List Char)

/-- One line of the `applyFormat` cell transformation: extract the block
prefix from the trimmed line, transform the remainder, re-attach. -/
def formatLine (op : FormatOp) (line : List Char) : List Char :=
  let trimmed := jsTrim line
  let pt :=
    if matchH13 trimmed then (trimmed.take 3, trimmed.drop 3)
    else if matchBullet trimmed then (trimmed.take 2, trimmed.drop 2)
    else if matchHash trimmed then (trimmed.take 2, trimmed.drop 2)
    else (([] : List Char), line)
  let newText :=
    match op with
    | .bold => boldLine pt.2
    | .italic => italicLine pt.2
    | .color v => colorLine v pt.2
  pt.1 ++ newText

/-- Whole-cell transformation: per line, then rejoin with `\n`. -/
def formatCell (op : FormatOp) (content : List Char) : List Char :=
  List.intercalate ['\n'] ((splitLines content).map (formatLine op))

/-- The key under which a row object's id is stored
(`{ id: generateId() }`): rows are single open objects, so a column keyed
`id` aliases the row id. -/
def idKey : List Char := String.toList "id"

/-- The cell id `` `${rowId}-${colKey}` ``. -/
def mkCellId (rid k : List Char) : List Char := rid ++ '-' :: k

/-- The `data.columns.forEach` loop of `applyFormat` over one row: the
source computes each cell id from the original row's `row.id`, so `rid`
stays fixed over the fold even when an assignment to the key `id` changes
the copy being built. -/
def applyRowCells (cols : List (List Char)) (sel : List Char → Bool)
    (op : FormatOp) (rid : List Char) (cells : List Char → List Char) :
    List Char → List Char :=
  cols.foldl
    (fun f col =>
      if sel (mkCellId rid col) then
        fun k => if k = col then formatCell op (f col) else f k
      else f)
    cells

/-- Function `applyFormat`: map over the open-object rows, reformatting
each selected cell; the id used to build the cell ids is the incoming
row's value at `idKey`.  (The early return on an empty selection is the
identity on the table and needs no separate case.) -/
def applyFormat (cols : List (List Char)) (sel : List Char → Bool)
    (op : FormatOp) (rows : List (List Char → List Char)) :
    List (List Char → List Char) :=
  rows.map (fun row => applyRowCells cols sel op (row idKey) row)

/-! ### Frame property of `applyFormat` (C9) -/

lemma applyRowCells_apply (cols : List (List Char)) (sel : List Char → Bool)
    (op : FormatOp) (rid : List Char) (cells : List Char → List Char)
    (k : List Char) :
    applyRowCells cols sel op rid cells k =
      if sel (mkCellId rid k) then
        (formatCell op)^[cols.count k] (cells k)
      else cells k := by
  induction cols generalizing cells with
  | nil => simp [applyRowCells]
  | cons col cols' ih =>
      show applyRowCells cols' sel op rid
        (if sel (mkCellId rid col) then
          fun k' => if k' = col then formatCell op (cells col) else cells k'
         else cells) k = _
      by_cases hck : k = col
      · subst hck
        by_cases hs : sel (mkCellId rid k)
        · rw [if_pos hs, ih]
          simp only [hs, if_true, if_pos rfl, List.count_cons_self,
            Function.iterate_succ_apply]
        · rw [if_neg hs, ih, if_neg hs, if_neg hs]
      · have hcount : (col :: cols').count k = cols'.count k :=
          List.count_cons_of_ne hck _
        rw [hcount]
        by_cases hs : sel (mkCellId rid col)
        · rw [if_pos hs, ih]
          simp only [if_neg hck]
        · rw [if_neg hs, ih]

/-- C9 (amended).  Frame property of the formatting mutator: `applyFormat`
preserves the number and order of rows and leaves every cell whose cell id
is not in the selection with its exact previous value — only selected
cells can change, and the column list is not touched at all (the code only
replaces the row state).  The row id is itself the cell under the key
`id` when a column uses that key, so it is unchanged provided no column is
keyed `id` or the row's `id` cell is not selected; otherwise formatting
overwrites it (see the counterexample). -/
theorem applyFormat_frame :
    ∀ (cols : List (List Char)) (sel : List Char → Bool) (op : FormatOp)
      (rows : List (List Char → List Char)),
      (applyFormat cols sel op rows).length = rows.length ∧
      (∀ (i : ℕ) (row : List Char → List Char) (k : List Char),
        rows.get? i = some row →
        sel (mkCellId (row idKey) k) = false →
        ((applyFormat cols sel op rows).get? i).map (fun r => r k) =
          some (row k)) ∧
      (∀ (i : ℕ) (row : List Char → List Char),
        rows.get? i = some row →
        idKey ∉ cols ∨ sel (mkCellId (row idKey) idKey) = false →
        ((applyFormat cols sel op rows).get? i).map (fun r => r idKey) =
          some (row idKey)) := by
  intro cols sel op rows
  refine ⟨by simp [applyFormat], ?_, ?_⟩
  · intro i row k hget hsel
    rw [applyFormat, List.get?_map, hget]
    simp only [Option.map_some']
    rw [applyRowCells_apply, if_neg (by rw [hsel]; simp)]
  · intro i row hget hid
    rw [applyFormat, List.get?_map, hget]
    simp only [Option.map_some']
    rw [applyRowCells_apply]
    rcases hid with hid | hid
    · rw [List.count_eq_zero.mpr hid]
      split <;> rfl
    · rw [if_neg (by rw [hid]; simp)]

/-- Witness for C9: a concrete one-row table with an unselected cell, and
id preservation when no column is keyed `id`. -/
theorem applyFormat_frame_witness :
    ((applyFormat [String.toList "a"] (fun _ => false) .bold
        [fun _ => String.toList "v"]).get? 0).map
      (fun r => r (String.toList "a")) = some (String.toList "v") ∧
    ((applyFormat [String.toList "a"] (fun _ => false) .bold
        [fun _ => String.toList "v"]).get? 0).map
      (fun r => r idKey) = some (String.toList "v") :=
  ⟨(applyFormat_frame [String.toList "a"] (fun _ => false) .bold
      [fun _ => String.toList "v"]).2.1 0 (fun _ => String.toList "v")
      (String.toList "a") rfl rfl,
   (applyFormat_frame [String.toList "a"] (fun _ => false) .bold
      [fun _ => String.toList "v"]).2.2 0 (fun _ => String.toList "v")
      rfl (Or.inl (by decide))⟩

/-- Counterexample to C9 as stated: with a column keyed `id` (any table
whose source had an `id` header) the row is one open object, so bolding
its selected `id`-keyed cell rewrites the row id from `r1` to `*r1*`. -/
theorem applyFormat_frame_counterexample :
    ((applyFormat [idKey] (fun _ => true) .bold
        [fun _ => String.toList "r1"]).get? 0).map (fun r => r idKey) =
      some (String.toList "*r1*") ∧
    String.toList "*r1*" ≠ String.toList "r1" := by
  refine ⟨by decide, by decide⟩

/-! ### Bold toggling (C6) -/

lemma splitLines_single (t : List Char) (hn : '\n' ∉ t) (hr : '\r' ∉ t) :
    splitLines t = [t] := by
  induction t with
  | nil => rfl
  | cons c cs ih =>
      have hc1 : c ≠ '\n' := fun h => hn (by simp [h])
      have hc2 : c ≠ '\r' := fun h => hr (by simp [h])
      have hcs := ih (fun h => hn (by simp [h])) (fun h => hr (by simp [h]))
      rw [splitLines.eq_def]
      split
      · rename_i heq
        exact absurd heq (by simp)
      · rename_i rest heq
        exact absurd (List.cons.inj heq).1 hc1
      · rename_i x rest heq
        exact absurd (List.cons.inj heq).1 hc2
      · rename_i x c' rest' hne1 hne2 heq
        obtain ⟨hceq, hrest⟩ := List.cons.inj heq
        subst hceq
        subst hrest
        rw [hcs]

lemma intercalate_singleton (s : List Char) (x : List Char) :
    List.intercalate s [x] = x := by
  simp [List.intercalate]

lemma jsTrim_fix (t : List Char)
    (h1 : t.head?.all (fun c => !jsWhitespaceChar c) = true)
    (h2 : t.getLast?.all (fun c => !jsWhitespaceChar c) = true) :
    jsTrim t = t := by
  have hdrop : t.dropWhile jsWhitespaceChar = t := by
    cases t with
    | nil => rfl
    | cons c cs =>
        simp only [List.head?_cons, Option.all_some, Bool.not_eq_true'] at h1
        rw [List.dropWhile_cons, if_neg (by rw [h1]; simp)]
  have hdrop2 : t.reverse.dropWhile jsWhitespaceChar = t.reverse := by
    cases hrev : t.reverse with
    | nil => rfl
    | cons c cs =>
        have hhead : t.getLast? = some c := by
          rw [← List.head?_reverse, hrev]
          rfl
        rw [hhead] at h2
        simp only [Option.all_some, Bool.not_eq_true'] at h2
        rw [List.dropWhile_cons, if_neg (by rw [h2]; simp)]
  rw [jsTrim, hdrop, hdrop2, List.reverse_reverse]

lemma matchH13_star (l : List Char) : matchH13 ('*' :: l) = false := by
  rcases l with _ | ⟨d, _ | ⟨w, r⟩⟩ <;> simp [matchH13]

lemma matchHash_star (l : List Char) : matchHash ('*' :: l) = false := by
  rcases l with _ | ⟨w, r⟩ <;> simp [matchHash]

lemma matchBullet_star (l : List Char) (h : l.head?.all (fun c => !jsWhitespaceChar c) = true) :
    matchBullet ('*' :: l) = false := by
  rcases l with _ | ⟨w, r⟩
  · simp [matchBullet]
  · simp only [List.head?_cons, Option.all_some, Bool.not_eq_true'] at h
    simp [matchBullet, h]

lemma formatLine_no_prefix (op : FormatOp) (t : List Char)
    (hp1 : matchH13 (jsTrim t) = false) (hp2 : matchBullet (jsTrim t) = false)
    (hp3 : matchHash (jsTrim t) = false) :
    formatLine op t =
      match op with
      | .bold => boldLine t
      | .italic => italicLine t
      | .color v => colorLine v t := by
  rw [formatLine.eq_def]
  simp only [hp1, hp2, hp3, Bool.false_eq_true, if_false, List.nil_append]

lemma formatCell_single_line (op : FormatOp) (t : List Char)
    (hn : '\n' ∉ t) (hr : '\r' ∉ t) :
    formatCell op t = formatLine op t := by
  rw [formatCell, splitLines_single t hn hr, List.map_cons, List.map_nil,
    intercalate_singleton]

lemma getLast?_star_wrap (t : List Char) :
    ('*' :: (t ++ ['*'])).getLast? = some '*' := by
  rw [show ('*' :: (t ++ ['*'])) = ('*' :: t) ++ ['*'] by simp,
    List.getLast?_concat]

lemma stripOneStar_wrap (t : List Char) :
    stripOneStar ('*' :: (t ++ ['*'])) = t := by
  rw [stripOneStar]
  simp only [List.head?_cons, List.tail_cons, if_true, eq_self_iff_true,
    List.getLast?_concat, List.dropLast_concat]

/-- Key single-cell fact: on a single plain-text line with no block prefix
whose trimmed form is not already `*`-wrapped and whose first character is
not whitespace, the bold toggle is an involution. -/
lemma formatCell_bold_involutive (t : List Char)
    (hn : '\n' ∉ t) (hr : '\r' ∉ t)
    (hp1 : matchH13 (jsTrim t) = false) (hp2 : matchBullet (jsTrim t) = false)
    (hp3 : matchHash (jsTrim t) = false)
    (hstar : ¬((jsTrim t).head? = some '*' ∧ (jsTrim t).getLast? = some '*'))
    (hhead : t.head?.all (fun c => !jsWhitespaceChar c) = true) :
    formatCell .bold (formatCell .bold t) = t := by
  have hwrap : formatCell .bold t = '*' :: (t ++ ['*']) := by
    rw [formatCell_single_line _ _ hn hr, formatLine_no_prefix _ _ hp1 hp2 hp3]
    rw [boldLine, if_neg hstar]
  rw [hwrap]
  set t' := '*' :: (t ++ ['*']) with ht'
  have hn' : '\n' ∉ t' := by
    rw [ht']
    simp only [List.mem_cons, List.mem_append, List.mem_singleton]
    push_neg
    exact ⟨by decide, hn, by decide⟩
  have hr' : '\r' ∉ t' := by
    rw [ht']
    simp only [List.mem_cons, List.mem_append, List.mem_singleton]
    push_neg
    exact ⟨by decide, hr, by decide⟩
  have htrim : jsTrim t' = t' := by
    apply jsTrim_fix
    · rw [ht']
      simp only [List.head?_cons, Option.all_some]
      decide
    · rw [ht', getLast?_star_wrap]
      simp only [Option.all_some]
      decide
  have hheadtail : (t ++ ['*']).head?.all (fun c => !jsWhitespaceChar c) = true := by
    cases t with
    | nil => decide
    | cons c cs =>
        simp only [List.cons_append, List.head?_cons, Option.all_some]
        simpa using hhead
  rw [formatCell_single_line _ _ hn' hr',
    formatLine_no_prefix _ _ (by rw [htrim, ht']; exact matchH13_star _)
      (by rw [htrim, ht']; exact matchBullet_star _ hheadtail)
      (by rw [htrim, ht']; exact matchHash_star _)]
  rw [boldLine, if_pos ?_]
  · rw [ht', stripOneStar_wrap]
  · constructor
    · rw [htrim, ht']
      rfl
    · rw [htrim, ht', getLast?_star_wrap]

lemma iterate_even_fixed {α : Type} (f : α → α) (t : α) (h : f (f t) = t) :
    ∀ n : ℕ, f^[n + n] t = t := by
  intro n
  induction n with
  | zero => rfl
  | succ m ih =>
      have : m + 1 + (m + 1) = (m + m) + 2 := by omega
      rw [this, Function.iterate_add_apply]
      have h2 : f^[2] t = t := by
        simp only [Function.iterate_succ_apply, Function.iterate_one]
        exact h
      rw [h2, ih]

/-- C6 (amended).  Applying the bold operation twice to a selection
containing a cell whose text is a single plain-text line (no block prefix)
restores the cell's original text, provided additionally that (a) the
trimmed text is not already both `*`-prefixed and `*`-suffixed (in which
case the first application unwraps rather than wraps), (b) the line does
not begin with a whitespace character (otherwise the wrap `*...*` makes
the trimmed line start with `* `, which the second application mistakes
for a bullet prefix), and (c) no column is keyed `id` or the row's
`id`-keyed cell is not selected (rows are open objects, so formatting a
selected `id` cell rewrites the row id that the second application's
selection lookup is computed from). -/
theorem applyFormat_bold_selfinverse :
    ∀ (cols : List (List Char)) (sel : List Char → Bool)
      (rows : List (List Char → List Char)) (i : ℕ)
      (row : List Char → List Char) (k : List Char),
      rows.get? i = some row →
      sel (mkCellId (row idKey) k) = true →
      (idKey ∉ cols ∨ sel (mkCellId (row idKey) idKey) = false) →
      '\n' ∉ row k → '\r' ∉ row k →
      matchH13 (jsTrim (row k)) = false →
      matchBullet (jsTrim (row k)) = false →
      matchHash (jsTrim (row k)) = false →
      ¬((jsTrim (row k)).head? = some '*' ∧
        (jsTrim (row k)).getLast? = some '*') →
      (row k).head?.all (fun c => !jsWhitespaceChar c) = true →
      ((applyFormat cols sel .bold (applyFormat cols sel .bold rows)).get? i).map
        (fun r => r k) = some (row k) := by
  intro cols sel rows i row k hget hsel hid hn hr hp1 hp2 hp3 hstar hhead
  have hidpres :
      applyRowCells cols sel .bold (row idKey) row idKey = row idKey := by
    rw [applyRowCells_apply]
    rcases hid with hid | hid
    · rw [List.count_eq_zero.mpr hid]
      split <;> rfl
    · rw [if_neg (by rw [hid]; simp)]
  rw [applyFormat, applyFormat, List.map_map, List.get?_map, hget]
  simp only [Option.map_some', Function.comp]
  rw [hidpres]
  rw [applyRowCells_apply, applyRowCells_apply, if_pos (by rw [hsel]),
    if_pos (by rw [hsel])]
  rw [← Function.iterate_add_apply]
  rw [iterate_even_fixed (formatCell .bold) (row k)
    (formatCell_bold_involutive _ hn hr hp1 hp2 hp3 hstar hhead) _]

/-- Witness for C6 on a one-cell table containing `abc` under a column
not keyed `id`. -/
theorem applyFormat_bold_selfinverse_witness :
    ((applyFormat [String.toList "col"] (fun _ => true) .bold
        (applyFormat [String.toList "col"] (fun _ => true) .bold
          [fun _ => String.toList "abc"])).get? 0).map
      (fun r => r (String.toList "col")) = some (String.toList "abc") :=
  applyFormat_bold_selfinverse [String.toList "col"] (fun _ => true)
    [fun _ => String.toList "abc"] 0 (fun _ => String.toList "abc")
    (String.toList "col") rfl rfl (Or.inl (by decide)) (by decide)
    (by decide) (by decide) (by decide) (by decide) (by decide) (by decide)

/-- Counterexample to C6 as stated, at three plain single-line cells with
no block prefix: `*` becomes `**`; ` x` becomes `* *x**` because the
wrapped form `* x*` is mistaken for a bullet line by the second
application; and `abc` under a column keyed `id` with the selection
exactly its cell id `abc-id` stays `*abc*`, because the first application
rewrites the row id so the second application's lookup `*abc*-id` misses
the selection. -/
theorem applyFormat_bold_counterexample :
    ((applyFormat [['c']] (fun _ => true) .bold
        (applyFormat [['c']] (fun _ => true) .bold
          [fun _ => ['*']])).get? 0).map (fun r => r ['c']) =
      some ['*', '*'] ∧
    (['*', '*'] : List Char) ≠ ['*'] ∧
    matchH13 (jsTrim ['*']) = false ∧ matchBullet (jsTrim ['*']) = false ∧
    matchHash (jsTrim ['*']) = false ∧
    ((applyFormat [['c']] (fun _ => true) .bold
        (applyFormat [['c']] (fun _ => true) .bold
          [fun _ => [' ', 'x']])).get? 0).map (fun r => r ['c']) =
      some ['*', ' ', '*', 'x', '*', '*'] ∧
    ([' ', 'x'] : List Char) ≠ ['*', ' ', '*', 'x', '*', '*'] ∧
    matchH13 (jsTrim [' ', 'x']) = false ∧
    matchBullet (jsTrim [' ', 'x']) = false ∧
    matchHash (jsTrim [' ', 'x']) = false ∧
    ((applyFormat [idKey] (fun cid => cid == String.toList "abc-id") .bold
        (applyFormat [idKey] (fun cid => cid == String.toList "abc-id") .bold
          [fun _ => String.toList "abc"])).get? 0).map
      (fun r => r idKey) = some (String.toList "*abc*") ∧
    String.toList "*abc*" ≠ String.toList "abc" ∧
    matchH13 (jsTrim (String.toList "abc")) = false ∧
    matchBullet (jsTrim (String.toList "abc")) = false ∧
    matchHash (jsTrim (String.toList "abc")) = false := by
  refine ⟨by decide, by decide, by decide, by decide, by decide, by decide,
    by decide, by decide, by decide, by decide, by decide, by decide,
    by decide, by decide, by decide⟩

/-!
## Block renderer (`FormattedCell`, `EditorView.tsx` lines 84–162)

One block per input line.  The running ordered-list counter `olCount` is
threaded through `renderLines`; inline span parsing (`parseColor` etc.)
applies to each block's content and is orthogonal to the block/counter
structure the claims are about, so a block carries the text handed to the
inline parser.
-/

inductive Block : Type
  | spacer : Block
  | heading : ℕ → List Char → Block
  | olItem : ℕ → List Char → Block
  | bullet : List Char → Block
  | para : List Char → Block
  deriving DecidableEq

/-- Regexes `/^h1\s/i`, `/^h2\s/i`, `/^h3\s/i` on the trimmed line. -/
def matchH (d : Char) : List Char → Bool
  | h :: d' :: w :: _ => (h = 'h' ∨ h = 'H') ∧ d' = d ∧ jsWhitespaceChar w
  | _ => false

def renderLines (ol : ℕ) : List (List Char) → List Block
  | [] => []
  | line :: rest =>
      let trimmed := jsTrim line
      let isOl := matchHash trimmed
      let ol' := if isOl = false ∧ trimmed.isEmpty = false then 0 else ol
      if trimmed.isEmpty then Block.spacer :: renderLines ol' rest
      else if matchH '1' trimmed then
        Block.heading 1 (trimmed.drop 3) :: renderLines ol' rest
      else if matchH '2' trimmed then
        Block.heading 2 (trimmed.drop 3) :: renderLines ol' rest
      else if matchH '3' trimmed then
        Block.heading 3 (trimmed.drop 3) :: renderLines ol' rest
      else if isOl then
        Block.olItem (ol' + 1) (trimmed.drop 2) :: renderLines (ol' + 1) rest
      else if matchBullet trimmed then
        Block.bullet (trimmed.drop 2) :: renderLines ol' rest
      else Block.para line :: renderLines ol' rest

/-- Component `FormattedCell`: empty text renders nothing, otherwise the split lines
are rendered with the counter starting at zero. -/
def renderCell (t : List Char) : List Block :=
  if t.isEmpty then [] else renderLines 0 (splitLines t)

/-- The single block emitted for a line when the counter is `c`. -/
def headBlock (c : ℕ) (line : List Char) : Block :=
  let trimmed := jsTrim line
  if trimmed.isEmpty then Block.spacer
  else if matchH '1' trimmed then Block.heading 1 (trimmed.drop 3)
  else if matchH '2' trimmed then Block.heading 2 (trimmed.drop 3)
  else if matchH '3' trimmed then Block.heading 3 (trimmed.drop 3)
  else if matchHash trimmed then Block.olItem (c + 1) (trimmed.drop 2)
  else if matchBullet trimmed then Block.bullet (trimmed.drop 2)
  else Block.para line

/-- The counter value after processing a line: increment on a
numbered-list line, keep on a blank line, reset to zero otherwise. -/
def nextOlCount (c : ℕ) (line : List Char) : ℕ :=
  if matchHash (jsTrim line) then c + 1
  else if (jsTrim line).isEmpty then c
  else 0

lemma matchHash_isEmpty_false (t : List Char) (h : matchHash t = true) :
    t.isEmpty = false := by
  rcases t with _ | ⟨c, _ | ⟨w, r⟩⟩ <;> first | rfl | simp [matchHash] at h

lemma matchHash_matchH_false (d : Char) (t : List Char)
    (h : matchHash t = true) : matchH d t = false := by
  rcases t with _ | ⟨c, _ | ⟨w, _ | ⟨x, r⟩⟩⟩
  · simp [matchHash] at h
  · simp [matchHash] at h
  · rfl
  · simp only [matchHash, decide_eq_true_eq] at h
    obtain ⟨hc, -⟩ := h
    subst hc
    simp only [matchH, decide_eq_false_iff_not]
    rintro ⟨hor, -⟩
    rcases hor with h' | h' <;> exact absurd h' (by decide)

lemma matchH_matchHash_false (d : Char) (t : List Char)
    (h : matchH d t = true) : matchHash t = false := by
  rcases t with _ | ⟨c, _ | ⟨w, _ | ⟨x, r⟩⟩⟩
  · simp [matchH] at h
  · simp [matchH] at h
  · simp [matchH] at h
  · simp only [matchH, decide_eq_true_eq] at h
    obtain ⟨hor, -⟩ := h
    simp only [matchHash, decide_eq_false_iff_not]
    rintro ⟨hc, -⟩
    rcases hor with h' | h' <;> rw [h'] at hc <;> exact absurd hc (by decide)

lemma matchH_isEmpty_false (d : Char) (t : List Char) (h : matchH d t = true) :
    t.isEmpty = false := by
  rcases t with _ | ⟨c, _ | ⟨w, _ | ⟨x, r⟩⟩⟩ <;> first | rfl | simp [matchH] at h

lemma renderLines_cons (c : ℕ) (line : List Char) (rest : List (List Char)) :
    renderLines c (line :: rest) =
      headBlock c line :: renderLines (nextOlCount c line) rest := by
  cases hempty : (jsTrim line).isEmpty with
  | true =>
      have hhash : matchHash (jsTrim line) = false := by
        rw [List.isEmpty_iff.mp hempty]
        rfl
      simp only [renderLines, headBlock, nextOlCount, hempty, hhash]
      simp
  | false =>
      cases hh1 : matchH '1' (jsTrim line) with
      | true =>
          have hhash := matchH_matchHash_false '1' _ hh1
          simp only [renderLines, headBlock, nextOlCount, hempty, hh1, hhash]
          simp
      | false =>
          cases hh2 : matchH '2' (jsTrim line) with
          | true =>
              have hhash := matchH_matchHash_false '2' _ hh2
              simp only [renderLines, headBlock, nextOlCount, hempty, hh1, hh2,
                hhash]
              simp
          | false =>
              cases hh3 : matchH '3' (jsTrim line) with
              | true =>
                  have hhash := matchH_matchHash_false '3' _ hh3
                  simp only [renderLines, headBlock, nextOlCount, hempty, hh1,
                    hh2, hh3, hhash]
                  simp
              | false =>
                  cases hhash : matchHash (jsTrim line) with
                  | true =>
                      simp only [renderLines, headBlock, nextOlCount, hempty,
                        hh1, hh2, hh3, hhash]
                      simp
                  | false =>
                      cases hb : matchBullet (jsTrim line) with
                      | true =>
                          simp only [renderLines, headBlock, nextOlCount,
                            hempty, hh1, hh2, hh3, hhash, hb]
                          simp
                      | false =>
                          simp only [renderLines, headBlock, nextOlCount,
                            hempty, hh1, hh2, hh3, hhash, hb]
                          simp

/-! ### Claim-side numbering for C8 -/

/-- A numbered-list line per the claim: trimmed form starts with `# `. -/
def isOlLine (l : List Char) : Bool := matchHash (jsTrim l)

/-- A counter-resetting line per the claim: non-empty and not a
numbered-list item. -/
def isResetLine (l : List Char) : Bool :=
  !(jsTrim l).isEmpty && !matchHash (jsTrim l)

/-- Modelled from the spec (claim side): the number the claim assigns to
line `i` when the counter starts at `c`: one plus the count of
numbered-list lines in the maximal reset-free run of lines immediately
preceding `i` (plus the inherited `c` when that run reaches the start). -/
def claimOlNumberAux (c : ℕ) (lines : List (List Char)) (i : ℕ) : ℕ :=
  let pre := lines.take i
  let seg := pre.reverse.takeWhile (fun l => !isResetLine l)
  (if seg.length = pre.length then c else 0) + (seg.filter isOlLine).length + 1

def claimOlNumber (lines : List (List Char)) (i : ℕ) : ℕ :=
  claimOlNumberAux 0 lines i

lemma takeWhile_append_eq {α : Type} [DecidableEq α] (p : α → Bool)
    (l1 l2 : List α) :
    (l1 ++ l2).takeWhile p =
      if l1.takeWhile p = l1 then l1 ++ l2.takeWhile p
      else l1.takeWhile p := by
  induction l1 with
  | nil => simp
  | cons a l1' ih =>
      simp only [List.cons_append, List.takeWhile_cons]
      cases hpa : p a with
      | true =>
          simp only [if_true]
          rw [ih]
          by_cases hrec : l1'.takeWhile p = l1'
          · rw [if_pos hrec, if_pos (by rw [hrec])]
          · rw [if_neg hrec, if_neg (fun hc => hrec (List.cons.inj hc).2)]
      | false =>
          simp only [Bool.false_eq_true, if_false]
          rw [if_neg (by simp)]

lemma claimOlNumberAux_zero (c : ℕ) (lines : List (List Char)) :
    claimOlNumberAux c lines 0 = c + 1 := by
  simp [claimOlNumberAux]

lemma takeWhile_length_lt_of_ne {α : Type} (p : α → Bool) (l : List α)
    (h : l.takeWhile p ≠ l) : (l.takeWhile p).length < l.length := by
  rcases Nat.lt_or_ge (l.takeWhile p).length l.length with hlt | hge
  · exact hlt
  · exact absurd ((List.takeWhile_prefix p).eq_of_length
      (Nat.le_antisymm ((List.takeWhile_prefix p).length_le) hge)) h

lemma claimOlNumberAux_cons (c : ℕ) (line : List Char)
    (rest : List (List Char)) (i : ℕ) :
    claimOlNumberAux c (line :: rest) (i + 1) =
      claimOlNumberAux (nextOlCount c line) rest i := by
  set R := (rest.take i).reverse with hRdef
  have hlenR : R.length = (rest.take i).length := by
    rw [hRdef, List.length_reverse]
  simp only [claimOlNumberAux, List.take_succ_cons, List.reverse_cons, ← hRdef]
  rw [takeWhile_append_eq]
  by_cases hfull : R.takeWhile (fun l => !isResetLine l) = R
  · rw [if_pos hfull, hfull]
    cases hkeep : isResetLine line with
    | false =>
        have htw : [line].takeWhile (fun l => !isResetLine l) = [line] := by
          simp [List.takeWhile_cons, hkeep]
        rw [htw]
        rw [if_pos (by simp [hlenR]), if_pos hlenR]
        rw [List.filter_append]
        simp only [List.length_append]
        have hreset := hkeep
        unfold isResetLine at hreset
        simp only [Bool.and_eq_false_iff, Bool.not_eq_false'] at hreset
        unfold nextOlCount
        cases hol : matchHash (jsTrim line) with
        | true =>
            simp only [hol, if_true]
            have hfl : (List.filter isOlLine [line]).length = 1 := by
              simp [List.filter_cons, isOlLine, hol]
            rw [hfl]
            omega
        | false =>
            simp only [hol, Bool.false_eq_true, if_false]
            have hfl : (List.filter isOlLine [line]).length = 0 := by
              simp [List.filter_cons, isOlLine, hol]
            rw [hfl]
            rcases hreset with hk | hk
            · simp only [hk, if_true]
              omega
            · rw [hol] at hk
              exact absurd hk (by simp)
    | true =>
        have htw : [line].takeWhile (fun l => !isResetLine l) = [] := by
          simp [List.takeWhile_cons, hkeep]
        rw [htw, List.append_nil]
        rw [if_neg (by simp only [List.length_cons]; omega),
          if_pos hlenR]
        have hreset := hkeep
        unfold isResetLine at hreset
        simp only [Bool.and_eq_true, Bool.not_eq_true'] at hreset
        unfold nextOlCount
        simp only [hreset.1, hreset.2, Bool.false_eq_true, if_false]
  · rw [if_neg hfull]
    have hlt := takeWhile_length_lt_of_ne _ _ hfull
    have hlt' : (R.takeWhile (fun l => !isResetLine l)).length <
        (rest.take i).length := by
      rw [← hlenR]
      exact hlt
    rw [if_neg (by simp only [List.length_cons]; omega), if_neg (by omega)]

lemma renderLines_length (c : ℕ) (lines : List (List Char)) :
    (renderLines c lines).length = lines.length := by
  induction lines generalizing c with
  | nil => rfl
  | cons line rest ih =>
      rw [renderLines_cons, List.length_cons, List.length_cons, ih]

lemma renderLines_spacer (lines : List (List Char)) :
    ∀ (c i : ℕ) (l : List Char), lines.get? i = some l →
      (jsTrim l).isEmpty = true →
      (renderLines c lines).get? i = some Block.spacer := by
  induction lines with
  | nil => intro c i l h; simp at h
  | cons line rest ih =>
      intro c i l hget hempty
      rw [renderLines_cons]
      cases i with
      | zero =>
          have hl : line = l := by simpa using hget
          subst hl
          show some (headBlock c line) = some Block.spacer
          rw [headBlock]
          simp only [hempty, if_true]
      | succ i' =>
          have hget' : rest.get? i' = some l := by simpa using hget
          show (renderLines (nextOlCount c line) rest).get? i' = _
          exact ih _ _ _ hget' hempty

lemma renderLines_olItem (lines : List (List Char)) :
    ∀ (c i : ℕ) (l : List Char), lines.get? i = some l →
      matchHash (jsTrim l) = true →
      (renderLines c lines).get? i =
        some (Block.olItem (claimOlNumberAux c lines i) ((jsTrim l).drop 2)) := by
  induction lines with
  | nil => intro c i l h; simp at h
  | cons line rest ih =>
      intro c i l hget hol
      rw [renderLines_cons]
      cases i with
      | zero =>
          have hl : line = l := by simpa using hget
          subst hl
          show some (headBlock c line) = _
          rw [headBlock, claimOlNumberAux_zero]
          have hne := matchHash_isEmpty_false _ hol
          have hh1 := matchHash_matchH_false '1' _ hol
          have hh2 := matchHash_matchH_false '2' _ hol
          have hh3 := matchHash_matchH_false '3' _ hol
          simp only [hne, hh1, hh2, hh3, hol, Bool.false_eq_true, if_false,
            if_true]
      | succ i' =>
          have hget' : rest.get? i' = some l := by simpa using hget
          show (renderLines (nextOlCount c line) rest).get? i' = _
          rw [claimOlNumberAux_cons]
          exact ih _ _ _ hget' hol

/-- C8. Numbered-list rendering: the renderer emits exactly one block
per line; every blank (all-whitespace) line renders as a spacer; and every
`# ` line renders as a numbered item whose number is one plus the count of
`# ` lines in the maximal run of non-resetting lines (blank or `# `)
immediately preceding it — so the counter resets exactly at non-empty
non-list lines and blank lines do not interrupt the numbering. -/
theorem renderLines_numbering :
    (∀ (c : ℕ) (lines : List (List Char)),
      (renderLines c lines).length = lines.length) ∧
    (∀ (lines : List (List Char)) (i : ℕ) (l : List Char),
      lines.get? i = some l → (jsTrim l).isEmpty = true →
      (renderLines 0 lines).get? i = some Block.spacer) ∧
    (∀ (lines : List (List Char)) (i : ℕ) (l : List Char),
      lines.get? i = some l → matchHash (jsTrim l) = true →
      (renderLines 0 lines).get? i =
        some (Block.olItem (claimOlNumber lines i) ((jsTrim l).drop 2))) :=
  ⟨fun c lines => renderLines_length c lines,
   fun lines i l hget hempty => renderLines_spacer lines 0 i l hget hempty,
   fun lines i l hget hol => renderLines_olItem lines 0 i l hget hol⟩

/-- Witness for C8: in `["# a", "", "# b"]` the blank line renders as a
spacer and the third line continues the numbering with 2. -/
theorem renderLines_numbering_witness :
    (renderLines 0 [String.toList "# a", [], String.toList "# b"]).length =
      ([String.toList "# a", [], String.toList "# b"] : List (List Char)).length ∧
    (renderLines 0 [String.toList "# a", [], String.toList "# b"]).get? 1 =
      some Block.spacer ∧
    (renderLines 0 [String.toList "# a", [], String.toList "# b"]).get? 2 =
      some (Block.olItem
        (claimOlNumber [String.toList "# a", [], String.toList "# b"] 2)
        ((jsTrim (String.toList "# b")).drop 2)) ∧
    claimOlNumber [String.toList "# a", [], String.toList "# b"] 2 = 2 :=
  ⟨renderLines_numbering.1 0 _,
   renderLines_numbering.2.1 [String.toList "# a", [], String.toList "# b"] 1
     [] rfl (by decide),
   renderLines_numbering.2.2 [String.toList "# a", [], String.toList "# b"] 2
     (String.toList "# b") rfl (by decide),
   by decide⟩

/-!
## Identifier generator (`generateId`, `src/unnamed/part_001` lines 3–4)

`Math.random().toString(36).substr(2, 9)`.  A `Math.random()` output is a
dyadic rational `n / 2^53` with `0 ≤ n < 2^53`; its base-36 rendering is
`"0"` when it is zero and otherwise `"0."` followed by the base-36
expansion of the fraction (which terminates, since 2 divides 36; the
engine emits digits until the remaining value is exhausted).
`substr(2, 9)` takes at most nine characters starting after the `"0."`.
-/

def js36Digit (n : ℕ) : Char :=
  if n < 10 then Char.ofNat ('0'.toNat + n) else Char.ofNat ('a'.toNat + (n - 10))

/-- Base-36 digits of `n / 2^53`, most significant first; `53` fuel
steps always exhaust the expansion (27 suffice). -/
def frac36Digits : ℕ → ℕ → List ℕ
  | 0, _ => []
  | fuel + 1, n =>
      if n = 0 then []
      else (n * 36) / 2 ^ 53 :: frac36Digits fuel ((n * 36) % 2 ^ 53)

def jsRandomToString36 (n : ℕ) : List Char :=
  if n = 0 then ['0'] else '0' :: '.' :: (frac36Digits 53 n).map js36Digit

def generateId (n : ℕ) : List Char := ((jsRandomToString36 n).drop 2).take 9

def idCharset : List Char := String.toList "0123456789abcdefghijklmnopqrstuvwxyz"

lemma frac36Digits_lt (fuel : ℕ) :
    ∀ (n : ℕ), n < 2 ^ 53 → ∀ d ∈ frac36Digits fuel n, d < 36 := by
  induction fuel with
  | zero => intro n _ d hd; simp [frac36Digits] at hd
  | succ f ih =>
      intro n hn d hd
      by_cases h0 : n = 0
      · subst h0
        simp [frac36Digits] at hd
      · rw [frac36Digits, if_neg h0] at hd
        simp only [List.mem_cons] at hd
        rcases hd with hd | hd
        · subst hd
          apply Nat.div_lt_of_lt_mul
          calc n * 36 < 2 ^ 53 * 36 := by
                exact (Nat.mul_lt_mul_right (by norm_num)).mpr hn
            _ = 36 * 2 ^ 53 := Nat.mul_comm _ _
        · exact ih _ (Nat.mod_lt _ (by norm_num)) d hd

/-- C7 (amended). The identifier is at most nine characters over the
stable character set `0-9a-z`; its length is *not* fixed (see the
counterexample): short base-36 expansions give shorter ids. -/
theorem generateId_shape :
    ∀ n : ℕ, n < 2 ^ 53 →
      (generateId n).length ≤ 9 ∧
      (generateId n).all (fun ch => idCharset.contains ch) = true := by
  intro n hn
  have hdig : ∀ d < 36, js36Digit d ∈ idCharset := by decide
  by_cases h0 : n = 0
  · subst h0
    constructor <;> decide
  · have hid : generateId n = ((frac36Digits 53 n).map js36Digit).take 9 := by
      rw [generateId, jsRandomToString36, if_neg h0]
      rfl
    rw [hid]
    constructor
    · rw [List.length_take]
      exact min_le_left _ _
    · rw [List.all_eq_true]
      intro ch hch
      have hch' := List.mem_of_mem_take hch
      obtain ⟨d, hd, hchd⟩ := List.mem_map.mp hch'
      rw [← hchd]
      have := hdig d (frac36Digits_lt 53 n hn d hd)
      simpa using this

/-- Witness for C7 at the seed `5 / 2^53`. -/
theorem generateId_shape_witness :
    (generateId 5).length ≤ 9 ∧
    (generateId 5).all (fun ch => idCharset.contains ch) = true :=
  generateId_shape 5 (by norm_num)

/-- Counterexample to C7 as stated: different random seeds produce ids of
different lengths — the seed `0` gives an empty id (`"0".substr(2, 9)`),
`0.5 = 2^52/2^53` (base-36 `"0.i"`) gives one character, and
`2^-20 = 2^33/2^53` gives nine. -/
theorem generateId_length_counterexample :
    (generateId 0).length = 0 ∧
    (generateId (2 ^ 52)).length = 1 ∧
    (generateId (2 ^ 33)).length = 9 ∧
    (generateId 0).length ≠ (generateId (2 ^ 33)).length := by
  refine ⟨by decide, ?_, ?_, ?_⟩ <;> decide
